import Mathlib

/-!
Verification of the weather data acquisition and caching layer of the Travel
repository, a shallow embedding of src/src/service/WeatherService.js.

Modelling conventions:
* JS numbers carrying fractional weather quantities (temperatures,
  precipitation probabilities, wind speeds) are modelled as exact rationals.
  Arithmetic is expressed through mkRat so that every definition is
  kernel-evaluable on concrete inputs.
* JS Math.round x is floor (x + 1/2) (round half toward positive infinity),
  which matches the JS semantics on all finite inputs.
* Asynchronous network calls are modelled by passing the terminal outcome of
  the call (Except: ok body, or error message for a thrown classified error)
  as an explicit argument.
* JS objects used as string-keyed maps preserve insertion order for
  non-index keys (both the YYYY-MM-DD bucket keys of the aggregator and the
  icon and description frequency keys are non-index strings), so they are
  modelled as association lists where a new key is appended at the end and
  an existing key is updated in place.
* sessionStorage payloads are modelled as either a well formed serialization
  of a mapping or a malformed blob; JSON.parse returns the mapping for the
  former and throws for the latter.
-/

namespace WeatherService

/-! ## JS string helpers (structural versions of toLowerCase, trim, includes) -/

/-- Models JS String.prototype.toLowerCase (character-wise lowering). -/
def jsToLower (s : String) : String := String.mk (s.toList.map Char.toLower)

/-- Models JS String.prototype.trim: whitespace stripped from both ends. -/
def jsTrim (s : String) : String :=
  String.mk (((s.toList.dropWhile Char.isWhitespace).reverse.dropWhile
    Char.isWhitespace).reverse)

/-- Whether pat occurs at the start of l. -/
def listStartsWith : List Char → List Char → Bool
  | [], _ => true
  | _ :: _, [] => false
  | p :: ps, c :: cs => p == c && listStartsWith ps cs

/-- Whether pat occurs contiguously somewhere in s. -/
def listContainsSub : List Char → List Char → Bool
  | [], pat => pat.isEmpty
  | c :: rest, pat => listStartsWith pat (c :: rest) || listContainsSub rest pat

/-- Models JS String.prototype.includes. -/
def jsIncludes (s pat : String) : Bool := listContainsSub s.toList pat.toList

/-! ## JS rational arithmetic helpers -/

/-- Exact rational addition, expressed through mkRat so it evaluates. -/
def qadd (a b : Rat) : Rat := mkRat (a.num * b.den + b.num * a.den) (a.den * b.den)

/-- Exact rational multiplication, expressed through mkRat so it evaluates. -/
def qmul (a b : Rat) : Rat := mkRat (a.num * b.num) (a.den * b.den)

/-- Division of a rational by a natural number (used for the wind mean).
On a zero divisor the JS source would produce NaN; that case is unreachable
because day buckets are never empty. -/
def qdivNat (a : Rat) (n : Nat) : Rat := mkRat a.num (a.den * n)

/-- Binary maximum, as computed by JS Math.max on finite numbers. -/
def qmax2 (a b : Rat) : Rat := if a ≤ b then b else a

/-- Binary minimum, as computed by JS Math.min on finite numbers. -/
def qmin2 (a b : Rat) : Rat := if a ≤ b then a else b

/-- JS Math.max over a spread list. The empty case would be -Infinity in JS;
it is unreachable here (buckets are nonempty) and mapped to 0. -/
def listMaxQ : List Rat → Rat
  | [] => 0
  | x :: xs => xs.foldl qmax2 x

/-- JS Math.min over a spread list (empty case unreachable, mapped to 0). -/
def listMinQ : List Rat → Rat
  | [] => 0
  | x :: xs => xs.foldl qmin2 x

/-- JS Array.prototype.reduce with (a, b) => a + b and initial value 0. -/
def listSumQ (l : List Rat) : Rat := l.foldl qadd 0

/-- JS Math.round: floor (x + 1/2). -/
def jsRound (q : Rat) : Int := (qadd q (mkRat 1 2)).floor

/-- Mathematical ceiling on rationals; used only to state the spec claim that
the daily high is ceiling-rounded (the source actually uses Math.round). -/
def ratCeil (q : Rat) : Int := Rat.ceil q

/-! ## Constants (WeatherService.js lines 7-9) -/

def WEATHER_CACHE_DURATION : Int := 30 * 60 * 1000

def MAX_RETRY_ATTEMPTS : Nat := 3

def RETRY_DELAY : Nat := 1000

/-! ## Cache store and startup loading (lines 12-37) -/

/-- Opaque weather response body (the parsed JSON of a current-conditions
response); its internal structure is irrelevant to the claims. -/
abbrev WData := String

/-- A cache entry: { timestamp: Date.now(), data }. -/
structure CacheEntry where
  timestamp : Int
  data : WData
deriving DecidableEq, Repr

/-- One cache namespace: a string-keyed JS object, as an association list in
insertion order. -/
abbrev CacheMap := List (String × CacheEntry)

/-- A persisted sessionStorage payload: either a well formed serialization of
a cache mapping, or a malformed blob on which JSON.parse throws. -/
inductive StoredPayload where
  | wellFormed (m : CacheMap)
  | malformed
deriving DecidableEq

/-- JSON.parse on a persisted payload: returns the mapping or throws. -/
def parseStored : StoredPayload → Except String CacheMap
  | .wellFormed m => .ok m
  | .malformed => .error "SyntaxError: Unexpected token in JSON"

/-- The two cache namespaces. -/
structure CachePair where
  current : CacheMap
  forecast : CacheMap
deriving DecidableEq, Repr

/-- initializeCache (lines 12-25): reads the two persisted payloads (none
models an absent sessionStorage key). Both JSON.parse calls sit inside one
try block whose catch returns a pair of empty mappings. -/
def initializeCache (storedCurrent storedForecast : Option StoredPayload) :
    CachePair :=
  let attempt : Except String CachePair := do
    let c ← match storedCurrent with
      | some p => parseStored p
      | none => pure []
    let f ← match storedForecast with
      | some p => parseStored p
      | none => pure []
    pure ⟨c, f⟩
  match attempt with
  | .ok v => v
  | .error _ => ⟨[], []⟩

/-- Association-list lookup, modelling JS object property read. -/
def alookup {β : Type} : List (String × β) → String → Option β
  | [], _ => none
  | (k, v) :: rest, key => if k = key then some v else alookup rest key

/-- Association-list write, modelling JS object property assignment: update
the existing key in place, or append a new key at the end. -/
def aput {β : Type} : List (String × β) → String → β → List (String × β)
  | [], key, v => [(key, v)]
  | (k, w) :: rest, key, v =>
    if k = key then (key, v) :: rest else (k, w) :: aput rest key v

/-! ## Retry policy (lines 46-64) -/

/-- The attempt loop of retryWithBackoff. fn gives the outcome of each
attempt (1-based); remaining counts how many further attempts are allowed
after the current one (so the loop guard attempt < maxAttempts of line 56
is remaining > 0). The result is paired with the list of backoff delays
actually waited, in order. -/
def retryGo {α : Type} (fn : Nat → Except String α) (delay : Nat) :
    Nat → Nat → Except String α × List Nat
  | attempt, 0 =>
    (match fn attempt with
     | .ok a => .ok a
     | .error e => .error e, [])
  | attempt, remaining + 1 =>
    match fn attempt with
    | .ok a => (.ok a, [])
    | .error _ =>
      let rest := retryGo fn delay (attempt + 1) remaining
      (rest.1, delay * 2 ^ (attempt - 1) :: rest.2)

/-- retryWithBackoff (lines 46-64). With maxAttempts = 0 the JS loop body
never runs and the function throws an undefined lastError, modelled as
Except.error none; otherwise errors carry the last attempt message. -/
def retryWithBackoff {α : Type} (fn : Nat → Except String α)
    (maxAttempts delay : Nat) : Except (Option String) α × List Nat :=
  if maxAttempts = 0 then (.error none, [])
  else
    match retryGo fn delay 1 (maxAttempts - 1) with
    | (.ok a, ws) => (.ok a, ws)
    | (.error e, ws) => (.error (some e), ws)

/-! ## Forecast aggregator (lines 277-339) -/

/-- One raw 3-hour sample of the forecast payload list. pop is optional:
item.pop || 0 defaults a missing probability to 0. -/
structure RawSample where
  dt : Nat
  temp : Rat
  pop : Option Rat
  icon : String
  description : String
  wind : Rat
deriving DecidableEq, Repr

/-- item.pop || 0 (a present 0 and an absent field both yield 0). -/
def popOrZero (o : Option Rat) : Rat :=
  match o with
  | none => 0
  | some q => q

/-- The UTC calendar day of a sample: new Date(dt * 1000).toISOString()
yields YYYY-MM-DD, and two timestamps share that string exactly when they
share dt / 86400, so the day is modelled by that quotient. -/
def dayOf (s : RawSample) : Nat := s.dt / 86400

/-- A per-day accumulation bucket (lines 290-300). The source also stores a
locale-formatted weekday label, omitted here as environment-dependent
presentation; no claim mentions it. -/
structure DayBucket where
  date : Nat
  temps : List Rat
  precipitation : List Rat
  weatherIcons : List String
  descriptions : List String
  winds : List Rat
deriving DecidableEq, Repr

/-- A fresh empty bucket for a newly encountered day (lines 291-299). -/
def newBucket (day : Nat) : DayBucket := ⟨day, [], [], [], [], []⟩

/-- Lines 302-306: push the fields of one sample onto a day bucket. -/
def pushSample (b : DayBucket) (s : RawSample) : DayBucket :=
  { b with
    temps := b.temps ++ [s.temp],
    precipitation := b.precipitation ++ [popOrZero s.pop],
    weatherIcons := b.weatherIcons ++ [s.icon],
    descriptions := b.descriptions ++ [s.description],
    winds := b.winds ++ [s.wind] }

/-- Process one sample against the ordered bucket list: update the bucket of
its day in place, or create and append a new one (JS object key semantics). -/
def updateFirst : List DayBucket → Nat → RawSample → List DayBucket
  | [], day, s => [pushSample (newBucket day) s]
  | b :: rest, day, s =>
    if b.date = day then pushSample b s :: rest
    else b :: updateFirst rest day s

/-- Lines 283-307: group the sample list into day buckets, in the order days
are first encountered. -/
def groupByDay (samples : List RawSample) : List DayBucket :=
  samples.foldl (fun acc s => updateFirst acc (dayOf s) s) []

/-- Lines 312-315 and 317-320: build the frequency table of a value list as
a JS object, i.e. an association list in first-encounter key order. -/
def bumpFreq : List (String × Nat) → String → List (String × Nat)
  | [], x => [(x, 1)]
  | (k, c) :: rest, x =>
    if k = x then (k, c + 1) :: rest else (k, c) :: bumpFreq rest x

def freqList (xs : List String) : List (String × Nat) := xs.foldl bumpFreq []

/-- Lines 322-326: Object.entries(freq).sort((a, b) => b[1] - a[1])[0].
Array.prototype.sort is stable, so the head of the descending-by-count sort
is the leftmost entry whose count is maximal; that element is computed
directly by a left fold that replaces the candidate only on a strictly
greater count. -/
def pickMaxEntry (p : String × Nat) (l : List (String × Nat)) : String × Nat :=
  l.foldl (fun q r => if q.2 < r.2 then r else q) p

/-- The most frequent value as selected by the source (none on an empty
list, where the source would throw on [0][0]; buckets are never empty). -/
def codeMostFrequent (xs : List String) : Option String :=
  match freqList xs with
  | [] => none
  | p :: rest => some (pickMaxEntry p rest).1

/-- One emitted daily summary (lines 328-337). -/
structure DailySummary where
  date : Nat
  high : Int
  low : Int
  precipitation : Int
  icon : String
  description : String
  wind : Int
deriving DecidableEq, Repr

/-- Lines 310-338: per-day summary computation. -/
def summarize (b : DayBucket) : DailySummary :=
  { date := b.date,
    high := jsRound (listMaxQ b.temps),
    low := jsRound (listMinQ b.temps),
    precipitation := jsRound (qmul (listMaxQ b.precipitation) (mkRat 100 1)),
    icon := (codeMostFrequent b.weatherIcons).getD "",
    description := (codeMostFrequent b.descriptions).getD "",
    wind := jsRound (qmul (qdivNat (listSumQ b.winds) b.winds.length) (mkRat 36 10)) }

/-- The raw forecast payload. list = none models a payload that is missing,
has no list field, or whose list is not an array (line 278 guard). -/
structure ForecastPayload where
  list : Option (List RawSample)
deriving DecidableEq

/-- processForecastData (lines 277-339). -/
def processForecastData (p : ForecastPayload) : List DailySummary :=
  match p.list with
  | none => []
  | some samples => ((groupByDay samples).map summarize).take 5

/-! ## Locations and cache keys -/

/-- A location argument: a city-name string or a {lat, lon} object. -/
inductive Location where
  | name (s : String)
  | coords (lat lon : Int)
deriving DecidableEq

/-- JS truthiness of the location argument (line 73 and line 157 guards):
the empty string is falsy, every object is truthy. -/
def locFalsy : Location → Bool
  | .name s => s.isEmpty
  | .coords _ _ => false

/-- location.toLowerCase().trim() for a string location. -/
def normalizeName (s : String) : String := jsTrim (jsToLower s)

/-- Line 163-165: the forecast cache key; a coordinate object is keyed by
the literal "lat,lon" string. -/
def forecastKey : Location → String
  | .name s => normalizeName s
  | .coords lat lon => toString lat ++ "," ++ toString lon

/-! ## Current-weather fetcher (lines 72-148) -/

/-- A value as returned by getCurrentWeather: a response body, an
error-shaped object { error: message }, or null. -/
inductive FetchVal where
  | payload (d : WData)
  | errObj (msg : String)
  | nullv
deriving DecidableEq, Repr

/-- Observable outcome of one getCurrentWeather call. -/
structure CurrentOut where
  result : FetchVal
  networkCalled : Bool
  cacheAfter : CacheMap
deriving DecidableEq, Repr

/-- Lines 99-146 once the fetch is reached: net is the terminal outcome of
fetchWeatherData under the configured retry policy, cached is the entry read
at call start (line 82) used for the stale fallback at line 141. -/
def currentFetchPath (cache : CacheMap) (key : String)
    (cached : Option CacheEntry) (now : Int) (net : Except String WData) :
    CurrentOut :=
  match net with
  | .ok d => ⟨.payload d, true, aput cache key ⟨now, d⟩⟩
  | .error msg =>
    match cached with
    | some e => ⟨.payload e.data, true, cache⟩
    | none => ⟨.errObj msg, true, cache⟩

/-- getCurrentWeather (lines 72-148). The line 73 falsy guard returns null.
Line 79 calls location.toLowerCase() before the coordinate check at line 93,
so a coordinate object throws a TypeError out of the function (the exception
is raised before the try block at line 131); the coordinate URL branch is
unreachable. -/
def getCurrentWeather (cache : CacheMap) (location : Location) (now : Int)
    (net : Except String WData) : Except String CurrentOut :=
  if locFalsy location then .ok ⟨.nullv, false, cache⟩
  else
    match location with
    | .coords _ _ => .error "TypeError: location.toLowerCase is not a function"
    | .name s =>
      let key := normalizeName s
      match alookup cache key with
      | some e =>
        if now - e.timestamp < WEATHER_CACHE_DURATION then
          .ok ⟨.payload e.data, false, cache⟩
        else
          .ok (currentFetchPath cache key (some e) now net)
      | none => .ok (currentFetchPath cache key none now net)

/-! ## Forecast fetcher (lines 156-238) -/

/-- A forecast cache entry (lines 209-213): timestamp, processed daily
summaries, and the raw payload. -/
structure FcEntry where
  timestamp : Int
  data : List DailySummary
  rawData : ForecastPayload
deriving DecidableEq

abbrev FcMap := List (String × FcEntry)

/-- A value as returned by getWeatherForecast. -/
inductive FcVal where
  | payload (l : List DailySummary)
  | errObj (msg : String)
  | nullv
deriving DecidableEq

/-- Observable outcome of one getWeatherForecast call. -/
structure ForecastOut where
  result : FcVal
  networkCalled : Bool
  cacheAfter : FcMap
deriving DecidableEq

/-- Lines 185-236 once the fetch is reached: on success the raw payload is
aggregated, cached together with the raw data, and the processed summaries
are returned; on terminal failure the stale entry read at call start is
served, else an error-shaped object. -/
def forecastFetchPath (cache : FcMap) (key : String) (cached : Option FcEntry)
    (now : Int) (net : Except String ForecastPayload) : ForecastOut :=
  match net with
  | .ok p =>
    let processed := processForecastData p
    ⟨.payload processed, true, aput cache key ⟨now, processed, p⟩⟩
  | .error msg =>
    match cached with
    | some e => ⟨.payload e.data, true, cache⟩
    | none => ⟨.errObj msg, true, cache⟩

/-- getWeatherForecast (lines 156-238). Unlike getCurrentWeather, the key
normalization branches on the argument type, so a coordinate object does not
throw. -/
def getWeatherForecast (cache : FcMap) (location : Location) (now : Int)
    (net : Except String ForecastPayload) : ForecastOut :=
  if locFalsy location then ⟨.nullv, false, cache⟩
  else
    let key := forecastKey location
    match alookup cache key with
    | some e =>
      if now - e.timestamp < WEATHER_CACHE_DURATION then
        ⟨.payload e.data, false, cache⟩
      else
        forecastFetchPath cache key (some e) now net
    | none => forecastFetchPath cache key none now net

/-! ## Alternate-location resolver (lines 245-270) -/

/-- A candidate city as returned to callers (lines 259-265). -/
structure City where
  name : String
  country : String
  state : String
  lat : Int
  lon : Int
deriving DecidableEq, Repr

/-- A raw geocoding record; extra models fields of the upstream payload that
findNearbyCities does not copy into its result shape. -/
structure GeoCity where
  name : String
  country : String
  state : String
  lat : Int
  lon : Int
  extra : Nat
deriving DecidableEq

/-- The field selection of lines 259-265. -/
def toCity (c : GeoCity) : City := ⟨c.name, c.country, c.state, c.lat, c.lon⟩

/-- Outcome of the geocoding fetch: a thrown error (network or JSON), a
non-2xx response, or an ok response carrying the candidate array. -/
inductive GeoOutcome where
  | throwErr (e : String)
  | notOk
  | ok (data : List GeoCity)
deriving DecidableEq

/-- The limit query parameter sent to the geocoding endpoint (line 249). -/
def GEO_LIMIT : Nat := 3

/-- findNearbyCities (lines 245-270): none models the null result. -/
def findNearbyCities : GeoOutcome → Option (List City)
  | .throwErr _ => none
  | .notOk => none
  | .ok data => if data.length > 0 then some (data.map toCity) else none

/-! ## Combined orchestrator getWeatherData (lines 355-391) -/

/-- The combined result object. alternatives = none and error = none model
absent fields / null. The current and forecast slots reuse the fetcher value
types (nullv models the explicit null of the failure branches). -/
structure WeatherDataOut where
  current : FetchVal
  forecast : FcVal
  alternatives : Option (List City)
  error : Option String
deriving DecidableEq

/-- JS truthiness of v && v.error for a fetcher result. -/
def errField : FetchVal → Option String
  | .errObj m => some m
  | _ => none

def errFieldF : FcVal → Option String
  | .errObj m => some m
  | _ => none

/-- Truthiness of an optional string (absent and empty are falsy). -/
def truthyStr : Option String → Bool
  | none => false
  | some s => !s.isEmpty

/-- alternatives && alternatives.length > 0 (line 372). -/
def altsTruthy : Option (List City) → Bool
  | none => false
  | some l => l.length > 0

/-- The line 377 message. -/
def notFoundMessage (location : String) : String :=
  "Location \"" ++ location ++ "\" not found. Did you mean one of these?"

/-- getWeatherData (lines 355-391). currentR and forecastR are the settled
outcomes of the two concurrent fetcher calls (error = a thrown exception
rejecting Promise.all, with the current rejection modelled as taking
priority); altsR is the outcome of awaiting findNearbyCities. Every
exception lands in the catch at line 387, which returns the error-shaped
object of line 389. -/
def getWeatherData (location : String) (currentR : Except String FetchVal)
    (forecastR : Except String FcVal)
    (altsR : Except String (Option (List City))) : WeatherDataOut :=
  match currentR, forecastR with
  | .error e, _ => ⟨.nullv, .nullv, none, some e⟩
  | .ok _, .error e => ⟨.nullv, .nullv, none, some e⟩
  | .ok current, .ok forecast =>
    let cErr := errField current
    let fErr := errFieldF forecast
    if truthyStr cErr && truthyStr fErr then
      let cmsg := cErr.getD ""
      if jsIncludes cmsg "not found" then
        match altsR with
        | .error e => ⟨.nullv, .nullv, none, some e⟩
        | .ok alts =>
          if altsTruthy alts then
            ⟨.nullv, .nullv, alts, some (notFoundMessage location)⟩
          else
            ⟨.nullv, .nullv, none, some cmsg⟩
      else
        ⟨.nullv, .nullv, none, some cmsg⟩
    else
      ⟨current, forecast, none, none⟩

/-! ## Spec-side definitions (used to state claims, not taken from the
source) -/

/-- First-occurrence deduplication: keeps each value at its first position. -/
def firstDedupFrom {α : Type} [DecidableEq α] (seen : List α) : List α → List α
  | [] => []
  | x :: xs =>
    if x ∈ seen then firstDedupFrom seen xs
    else x :: firstDedupFrom (x :: seen) xs

def firstDedup {α : Type} [DecidableEq α] (l : List α) : List α :=
  firstDedupFrom [] l

/-- The maximal multiplicity attained in xs. -/
def maxCountOf (xs : List String) : Nat :=
  (xs.map (fun y => xs.count y)).foldr max 0

/-- The most frequently occurring value of xs, ties broken by first
encounter: the earliest element whose multiplicity is maximal. This is the
wording of the specification, stated independently of the source. -/
def mostFrequentFirst (xs : List String) : Option String :=
  xs.find? (fun y => xs.count y = maxCountOf xs)

/-- Whether an attempt outcome is a thrown error (used to state the retry
claim). -/
def isErrorOutcome {α : Type} : Except String α → Bool
  | .ok _ => false
  | .error _ => true

/-- The samples of one calendar day, in payload order (the spec phrase:
the samples of that day). -/
def samplesOfDay (samples : List RawSample) (d : Nat) : List RawSample :=
  samples.filter (fun s => dayOf s == d)

/-- The day bucket that grouping by day produces for day d: every field
list holds the values of exactly the day-d samples, in payload order. -/
def bucketOf (samples : List RawSample) (d : Nat) : DayBucket :=
  ⟨d, (samplesOfDay samples d).map (fun s => s.temp),
    (samplesOfDay samples d).map (fun s => popOrZero s.pop),
    (samplesOfDay samples d).map (fun s => s.icon),
    (samplesOfDay samples d).map (fun s => s.description),
    (samplesOfDay samples d).map (fun s => s.wind)⟩

/-- The daily summary the amended claim prescribes for day d of a payload,
stated in the wording of the specification over the samples of that day:
rounded maximum and minimum temperature, rounded maximal precipitation
probability times 100, most frequent icon and description with ties broken
by first encounter, rounded mean wind speed times 3.6. -/
def claimedSummary (samples : List RawSample) (d : Nat) : DailySummary :=
  { date := d,
    high := jsRound (listMaxQ ((samplesOfDay samples d).map (fun s => s.temp))),
    low := jsRound (listMinQ ((samplesOfDay samples d).map (fun s => s.temp))),
    precipitation := jsRound (qmul
      (listMaxQ ((samplesOfDay samples d).map (fun s => popOrZero s.pop)))
      (mkRat 100 1)),
    icon := (mostFrequentFirst
      ((samplesOfDay samples d).map (fun s => s.icon))).getD "",
    description := (mostFrequentFirst
      ((samplesOfDay samples d).map (fun s => s.description))).getD "",
    wind := jsRound (qmul
      (qdivNat (listSumQ ((samplesOfDay samples d).map (fun s => s.wind)))
        (samplesOfDay samples d).length)
      (mkRat 36 10)) }

end WeatherService


namespace WeatherService

/-! ## Lemmas about first-occurrence deduplication -/

theorem mem_firstDedupFrom {α : Type} [DecidableEq α] (l : List α) :
    ∀ (seen : List α) (a : α),
      a ∈ firstDedupFrom seen l ↔ a ∈ l ∧ a ∉ seen := by
  induction l with
  | nil => intro seen a; simp [firstDedupFrom]
  | cons x l ih =>
    intro seen a
    by_cases hx : x ∈ seen
    · rw [firstDedupFrom, if_pos hx, ih]
      constructor
      · rintro ⟨h1, h2⟩; exact ⟨List.mem_cons_of_mem x h1, h2⟩
      · rintro ⟨h1, h2⟩
        rcases List.mem_cons.mp h1 with rfl | h1
        · exact absurd hx h2
        · exact ⟨h1, h2⟩
    · rw [firstDedupFrom, if_neg hx]
      constructor
      · intro h
        rcases List.mem_cons.mp h with rfl | h
        · exact ⟨List.mem_cons_self a l, hx⟩
        · rcases (ih (x :: seen) a).mp h with ⟨h1, h2⟩
          refine ⟨List.mem_cons_of_mem x h1, fun hs => h2 ?_⟩
          exact List.mem_cons_of_mem x hs
      · rintro ⟨h1, h2⟩
        rcases List.mem_cons.mp h1 with rfl | h1
        · exact List.mem_cons_self a _
        · by_cases hax : a = x
          · subst hax; exact List.mem_cons_self a _
          · refine List.mem_cons_of_mem x ((ih (x :: seen) a).mpr ⟨h1, ?_⟩)
            intro hs
            rcases List.mem_cons.mp hs with h | h
            · exact hax h
            · exact h2 h

theorem mem_firstDedup {α : Type} [DecidableEq α] (l : List α) (a : α) :
    a ∈ firstDedup l ↔ a ∈ l := by
  rw [firstDedup, mem_firstDedupFrom]
  simp

theorem nodup_firstDedupFrom {α : Type} [DecidableEq α] (l : List α) :
    ∀ seen : List α, (firstDedupFrom seen l).Nodup := by
  induction l with
  | nil => intro seen; simp [firstDedupFrom]
  | cons x l ih =>
    intro seen
    by_cases hx : x ∈ seen
    · rw [firstDedupFrom, if_pos hx]; exact ih seen
    · rw [firstDedupFrom, if_neg hx]
      refine List.nodup_cons.mpr ⟨fun h => ?_, ih (x :: seen)⟩
      exact ((mem_firstDedupFrom l (x :: seen) x).mp h).2 (List.mem_cons_self x seen)

theorem nodup_firstDedup {α : Type} [DecidableEq α] (l : List α) :
    (firstDedup l).Nodup := nodup_firstDedupFrom l []

theorem firstDedupFrom_snoc {α : Type} [DecidableEq α] (l : List α) :
    ∀ (seen : List α) (x : α),
      firstDedupFrom seen (l ++ [x]) =
        firstDedupFrom seen l ++ (if x ∈ seen ∨ x ∈ l then [] else [x]) := by
  induction l with
  | nil =>
    intro seen x
    by_cases hx : x ∈ seen <;> simp [firstDedupFrom, hx]
  | cons y l ih =>
    intro seen x
    by_cases hy : y ∈ seen
    · rw [List.cons_append, firstDedupFrom, if_pos hy, ih seen x,
        firstDedupFrom, if_pos hy]
      have hcond : (x ∈ seen ∨ x ∈ l) ↔ (x ∈ seen ∨ x ∈ y :: l) := by
        simp only [List.mem_cons]
        constructor
        · rintro (h | h)
          · exact Or.inl h
          · exact Or.inr (Or.inr h)
        · rintro (h | rfl | h)
          · exact Or.inl h
          · exact Or.inl hy
          · exact Or.inr h
      exact congrArg (firstDedupFrom seen l ++ ·) (if_congr hcond rfl rfl)
    · rw [List.cons_append, firstDedupFrom, if_neg hy, ih (y :: seen) x,
        firstDedupFrom, if_neg hy, List.cons_append]
      have hcond : (x ∈ y :: seen ∨ x ∈ l) ↔ (x ∈ seen ∨ x ∈ y :: l) := by
        simp only [List.mem_cons]
        constructor
        · rintro ((rfl | h) | h)
          · exact Or.inr (Or.inl rfl)
          · exact Or.inl h
          · exact Or.inr (Or.inr h)
        · rintro (h | rfl | h)
          · exact Or.inl (Or.inr h)
          · exact Or.inl (Or.inl rfl)
          · exact Or.inr h
      exact congrArg (fun t => y :: (firstDedupFrom (y :: seen) l ++ t))
        (if_congr hcond rfl rfl)

theorem firstDedup_snoc {α : Type} [DecidableEq α] (l : List α) (x : α) :
    firstDedup (l ++ [x]) =
      firstDedup l ++ (if x ∈ l then [] else [x]) := by
  rw [firstDedup, firstDedupFrom_snoc, firstDedup]
  simp

theorem find?_firstDedupFrom {α : Type} [DecidableEq α] (P : α → Bool) (l : List α) :
    ∀ seen : List α, (∀ a ∈ seen, P a = false) →
      (firstDedupFrom seen l).find? P = l.find? P := by
  induction l with
  | nil => intro seen _; simp [firstDedupFrom]
  | cons x l ih =>
    intro seen hseen
    by_cases hx : x ∈ seen
    · rw [firstDedupFrom, if_pos hx, ih seen hseen, List.find?_cons,
        hseen x hx]
    · rw [firstDedupFrom, if_neg hx, List.find?_cons, List.find?_cons]
      cases hP : P x with
      | true => rfl
      | false =>
        refine ih (x :: seen) ?_
        intro a ha
        rcases List.mem_cons.mp ha with rfl | ha
        · exact hP
        · exact hseen a ha

theorem find?_firstDedup {α : Type} [DecidableEq α] (P : α → Bool) (l : List α) :
    (firstDedup l).find? P = l.find? P := by
  rw [firstDedup, find?_firstDedupFrom]
  intro a ha
  exact absurd ha (List.not_mem_nil a)

/-! ## Day-grouping lemmas -/

theorem pushSample_date (b : DayBucket) (s : RawSample) :
    (pushSample b s).date = b.date := rfl

theorem updateFirst_dates (acc : List DayBucket) (day : Nat) (s : RawSample) :
    (updateFirst acc day s).map (fun b => b.date) =
      if day ∈ acc.map (fun b => b.date) then acc.map (fun b => b.date)
      else acc.map (fun b => b.date) ++ [day] := by
  induction acc with
  | nil => simp [updateFirst, newBucket, pushSample]
  | cons b rest ih =>
    by_cases hb : b.date = day
    · rw [updateFirst, if_pos hb]
      simp [pushSample_date, hb]
    · rw [updateFirst, if_neg hb, List.map_cons, List.map_cons, ih]
      by_cases hd : day ∈ rest.map (fun b => b.date)
      · rw [if_pos hd, if_pos (List.mem_cons_of_mem b.date hd)]
      · have hnc : day ∉ b.date :: rest.map (fun b => b.date) := by
          intro h
          rcases List.mem_cons.mp h with h | h
          · exact hb h.symm
          · exact hd h
        rw [if_neg hd, if_neg hnc, List.cons_append]

theorem groupByDay_dates (samples : List RawSample) :
    (groupByDay samples).map (fun b => b.date) =
      firstDedup (samples.map dayOf) := by
  induction samples using List.reverseRecOn with
  | nil => simp [groupByDay, firstDedup, firstDedupFrom]
  | append_singleton l s ih =>
    rw [groupByDay, List.foldl_append, List.foldl_cons, List.foldl_nil]
    rw [show List.foldl (fun acc s => updateFirst acc (dayOf s) s) [] l
        = groupByDay l from rfl]
    rw [updateFirst_dates, ih, List.map_append, List.map_singleton,
      firstDedup_snoc]
    have hmem : (dayOf s ∈ firstDedup (l.map dayOf)) ↔ (dayOf s ∈ l.map dayOf) :=
      mem_firstDedup (l.map dayOf) (dayOf s)
    by_cases hd : dayOf s ∈ l.map dayOf
    · rw [if_pos (hmem.mpr hd), if_pos hd, List.append_nil]
    · rw [if_neg (fun h => hd (hmem.mp h)), if_neg hd]

/-- C5: the dates of the emitted summaries are the distinct sample days in
first-encounter order, truncated to the first five, and are pairwise
distinct (exactly one summary per distinct day). -/
theorem c5_first_five_days (samples : List RawSample) :
    (processForecastData ⟨some samples⟩).map (fun d => d.date) =
      (firstDedup (samples.map dayOf)).take 5 ∧
    ((processForecastData ⟨some samples⟩).map (fun d => d.date)).Nodup := by
  have hdates : (processForecastData ⟨some samples⟩).map (fun d => d.date) =
      (firstDedup (samples.map dayOf)).take 5 := by
    show (((groupByDay samples).map summarize).take 5).map (fun d => d.date)
        = (firstDedup (samples.map dayOf)).take 5
    rw [List.map_take, List.map_map, ← groupByDay_dates]
    rfl
  refine ⟨hdates, ?_⟩
  rw [hdates]
  exact (nodup_firstDedup (samples.map dayOf)).sublist (List.take_sublist _ _)

end WeatherService

namespace WeatherService

/-! ## Frequency-table lemmas: the source selection (stable sort by
descending count, take the first entry) equals the specification wording
(most frequent value, ties broken by first encounter). -/

theorem bumpFreq_absent (l : List (String × Nat)) (x : String) :
    (∀ p ∈ l, p.1 ≠ x) → bumpFreq l x = l ++ [(x, 1)] := by
  induction l with
  | nil => intro _; rfl
  | cons p rest ih =>
    intro h
    rw [show bumpFreq (p :: rest) x =
        (if p.1 = x then (p.1, p.2 + 1) :: rest else p :: bumpFreq rest x)
      from rfl]
    rw [if_neg (h p (List.mem_cons_self p rest)), List.cons_append,
      ih (fun q hq => h q (List.mem_cons_of_mem p hq))]

theorem bumpFreq_map (d : List String) (f : String → Nat) (x : String) :
    d.Nodup → x ∈ d →
      bumpFreq (d.map (fun k => (k, f k))) x =
        d.map (fun k => (k, if k = x then f k + 1 else f k)) := by
  induction d with
  | nil => intro _ h; exact absurd h (List.not_mem_nil x)
  | cons y d ih =>
    intro hnd hx
    rw [List.map_cons, List.map_cons]
    rcases List.mem_cons.mp hx with rfl | hx
    · rw [show bumpFreq ((x, f x) :: d.map (fun k => (k, f k))) x =
          (if x = x then (x, f x + 1) :: d.map (fun k => (k, f k))
           else (x, f x) :: bumpFreq (d.map (fun k => (k, f k))) x) from rfl]
      rw [if_pos rfl, if_pos rfl]
      have hxd : x ∉ d := (List.nodup_cons.mp hnd).1
      have : d.map (fun k => (k, if k = x then f k + 1 else f k)) =
          d.map (fun k => (k, f k)) := by
        apply List.map_congr_left
        intro a ha
        rw [if_neg (fun (h : a = x) => hxd (h ▸ ha))]
      rw [this]
    · have hyx : y ≠ x := by
        rintro rfl
        exact (List.nodup_cons.mp hnd).1 hx
      rw [show bumpFreq ((y, f y) :: d.map (fun k => (k, f k))) x =
          (if y = x then (y, f y + 1) :: d.map (fun k => (k, f k))
           else (y, f y) :: bumpFreq (d.map (fun k => (k, f k))) x) from rfl]
      rw [if_neg hyx, if_neg hyx, ih (List.nodup_cons.mp hnd).2 hx]

theorem freqList_eq (xs : List String) :
    freqList xs = (firstDedup xs).map (fun k => (k, xs.count k)) := by
  induction xs using List.reverseRecOn with
  | nil => rfl
  | append_singleton l x ih =>
    rw [freqList, List.foldl_append, List.foldl_cons, List.foldl_nil,
      show List.foldl bumpFreq [] l = freqList l from rfl, ih,
      firstDedup_snoc]
    by_cases hx : x ∈ l
    · rw [if_pos hx, List.append_nil]
      have hxd : x ∈ firstDedup l := (mem_firstDedup l x).mpr hx
      rw [bumpFreq_map (firstDedup l) (fun k => l.count k) x
        (nodup_firstDedup l) hxd]
      apply List.map_congr_left
      intro a _
      by_cases hax : a = x
      · subst hax
        rw [if_pos rfl, List.count_append, List.count_singleton]
        simp
      · rw [if_neg hax, List.count_append, List.count_singleton]
        have : (x == a) = false := by
          simp only [beq_eq_false_iff_ne, ne_eq]
          exact fun h => hax h.symm
        rw [this]
        simp
    · rw [if_neg hx]
      have habs : ∀ p ∈ (firstDedup l).map (fun k => (k, l.count k)), p.1 ≠ x := by
        intro p hp
        rcases List.mem_map.mp hp with ⟨a, ha, rfl⟩
        intro h
        apply hx
        rw [← h]
        exact (mem_firstDedup l a).mp ha
      rw [bumpFreq_absent _ x habs, List.map_append]
      congr 1
      · apply List.map_congr_left
        intro a ha
        have hax : a ≠ x := fun h => hx (h ▸ (mem_firstDedup l a).mp ha)
        rw [List.count_append, List.count_singleton]
        have : (x == a) = false := by
          simp only [beq_eq_false_iff_ne, ne_eq]
          exact fun h => hax h.symm
        rw [this]
        simp
      · rw [List.map_singleton, List.count_append, List.count_singleton]
        have hc0 : l.count x = 0 := List.count_eq_zero.mpr hx
        rw [hc0]
        simp

theorem pickMaxEntry_cons (p r : String × Nat) (rest : List (String × Nat)) :
    pickMaxEntry p (r :: rest) =
      pickMaxEntry (if p.2 < r.2 then r else p) rest := rfl

theorem pickMaxEntry_spec (rest : List (String × Nat)) :
    ∀ p : String × Nat,
      (∃ l₁ l₂, p :: rest = l₁ ++ pickMaxEntry p rest :: l₂ ∧
        ∀ q ∈ l₁, q.2 < (pickMaxEntry p rest).2) ∧
      (∀ q ∈ p :: rest, q.2 ≤ (pickMaxEntry p rest).2) := by
  induction rest with
  | nil =>
    intro p
    refine ⟨⟨[], [], rfl, by simp⟩, ?_⟩
    intro q hq
    rcases List.mem_cons.mp hq with rfl | hq
    · exact le_refl _
    · exact absurd hq (List.not_mem_nil q)
  | cons r rest ih =>
    intro p
    rw [pickMaxEntry_cons]
    by_cases hlt : p.2 < r.2
    · rw [if_pos hlt]
      obtain ⟨⟨l₁, l₂, hdec, hbound⟩, hle⟩ := ih r
      have hrle : r.2 ≤ (pickMaxEntry r rest).2 :=
        hle r (List.mem_cons_self r rest)
      refine ⟨⟨p :: l₁, l₂, ?_, ?_⟩, ?_⟩
      · rw [List.cons_append, ← hdec]
      · intro q hq
        rcases List.mem_cons.mp hq with rfl | hq
        · exact lt_of_lt_of_le hlt hrle
        · exact hbound q hq
      · intro q hq
        rcases List.mem_cons.mp hq with rfl | hq
        · exact le_trans (le_of_lt hlt) hrle
        · exact hle q hq
    · rw [if_neg hlt]
      obtain ⟨⟨l₁, l₂, hdec, hbound⟩, hle⟩ := ih p
      have hrp : r.2 ≤ p.2 := Nat.le_of_not_lt hlt
      have hple : p.2 ≤ (pickMaxEntry p rest).2 :=
        hle p (List.mem_cons_self p rest)
      cases l₁ with
      | nil =>
        rw [List.nil_append] at hdec
        have hm : pickMaxEntry p rest = p := (List.head_eq_of_cons_eq hdec).symm
        refine ⟨⟨[], r :: rest, ?_, ?_⟩, ?_⟩
        · rw [List.nil_append, hm]
        · intro q hq
          exact absurd hq (List.not_mem_nil q)
        · intro q hq
          rcases List.mem_cons.mp hq with rfl | hq
          · exact hple
          · rcases List.mem_cons.mp hq with rfl | hq
            · exact le_trans hrp hple
            · exact hle q (List.mem_cons_of_mem p hq)
      | cons a l₁t =>
        have ha : a = p := by
          have := hdec
          rw [List.cons_append] at this
          exact (List.head_eq_of_cons_eq this).symm
        subst ha
        have hrest : rest = l₁t ++ pickMaxEntry a rest :: l₂ :=
          List.tail_eq_of_cons_eq (by rw [List.cons_append] at hdec; exact hdec)
        have hpm : a.2 < (pickMaxEntry a rest).2 :=
          hbound a (List.mem_cons_self a l₁t)
        refine ⟨⟨a :: r :: l₁t, l₂, ?_, ?_⟩, ?_⟩
        · rw [List.cons_append, List.cons_append, ← hrest]
        · intro q hq
          rcases List.mem_cons.mp hq with rfl | hq
          · exact hpm
          · rcases List.mem_cons.mp hq with rfl | hq
            · exact lt_of_le_of_lt hrp hpm
            · exact hbound q (List.mem_cons_of_mem a hq)
        · intro q hq
          rcases List.mem_cons.mp hq with rfl | hq
          · exact hple
          · rcases List.mem_cons.mp hq with rfl | hq
            · exact le_trans hrp hple
            · exact hle q (List.mem_cons_of_mem a hq)

theorem find?_prefix_fail {α : Type} (P : α → Bool) (l₁ l₂ : List α) (k : α)
    (h1 : ∀ y ∈ l₁, P y = false) (hk : P k = true) :
    (l₁ ++ k :: l₂).find? P = some k := by
  induction l₁ with
  | nil => simp [List.find?_cons, hk]
  | cons a t ih =>
    rw [List.cons_append, List.find?_cons, h1 a (List.mem_cons_self a t)]
    exact ih (fun y hy => h1 y (List.mem_cons_of_mem a hy))

theorem le_foldr_max (l : List Nat) (v : Nat) (h : v ∈ l) :
    v ≤ l.foldr max 0 := by
  induction l with
  | nil => exact absurd h (List.not_mem_nil v)
  | cons a t ih =>
    rcases List.mem_cons.mp h with rfl | h
    · exact Nat.le_max_left _ _
    · exact le_trans (ih h) (Nat.le_max_right _ _)

theorem foldr_max_le (l : List Nat) (b : Nat) (h : ∀ v ∈ l, v ≤ b) :
    l.foldr max 0 ≤ b := by
  induction l with
  | nil => exact Nat.zero_le b
  | cons a t ih =>
    exact Nat.max_le.mpr ⟨h a (List.mem_cons_self a t),
      ih (fun v hv => h v (List.mem_cons_of_mem a hv))⟩

theorem map_decomp {α β : Type} (f : α → β) (l : List α) :
    ∀ (l₁ l₂ : List β) (y : β), l.map f = l₁ ++ y :: l₂ →
      ∃ a₁ b a₂, l = a₁ ++ b :: a₂ ∧ a₁.map f = l₁ ∧ f b = y ∧ a₂.map f = l₂ := by
  induction l with
  | nil =>
    intro l₁ l₂ y h
    exact absurd h.symm (List.append_ne_nil_of_right_ne_nil l₁ (List.cons_ne_nil y l₂))
  | cons c t ih =>
    intro l₁ l₂ y h
    cases l₁ with
    | nil =>
      rw [List.map_cons, List.nil_append] at h
      exact ⟨[], c, t, rfl, rfl, (List.head_eq_of_cons_eq h),
        (List.tail_eq_of_cons_eq h)⟩
    | cons z l₁t =>
      rw [List.map_cons, List.cons_append] at h
      obtain ⟨a₁, b, a₂, hteq, hmap1, hfb, hmap2⟩ :=
        ih l₁t l₂ y (List.tail_eq_of_cons_eq h)
      exact ⟨c :: a₁, b, a₂, by rw [hteq, List.cons_append],
        by rw [List.map_cons, hmap1, List.head_eq_of_cons_eq h], hfb, hmap2⟩

/-- The selection the source makes from the frequency object equals the
specification phrase: the most frequent value, ties broken by first
encounter. -/
theorem codeMostFrequent_eq_mostFrequentFirst (xs : List String) :
    codeMostFrequent xs = mostFrequentFirst xs := by
  by_cases hempty : xs = []
  · subst hempty; rfl
  · have hfreq := freqList_eq xs
    obtain ⟨k0, dt, hd⟩ : ∃ k0 dt, firstDedup xs = k0 :: dt := by
      cases h : firstDedup xs with
      | nil =>
        exfalso
        obtain ⟨a, t, rfl⟩ := List.exists_cons_of_ne_nil hempty
        have : a ∈ firstDedup (a :: t) :=
          (mem_firstDedup (a :: t) a).mpr (List.mem_cons_self a t)
        rw [h] at this
        exact absurd this (List.not_mem_nil a)
      | cons a b => exact ⟨a, b, rfl⟩
    set g : String → String × Nat := fun k => (k, xs.count k) with hg
    have hmapfreq : freqList xs = g k0 :: dt.map g := by
      rw [hfreq, hd, List.map_cons]
    have hcode : codeMostFrequent xs = some (pickMaxEntry (g k0) (dt.map g)).1 := by
      rw [codeMostFrequent, hmapfreq]
    set m := pickMaxEntry (g k0) (dt.map g) with hm
    obtain ⟨⟨l₁, l₂, hdec, hbound⟩, hle⟩ := pickMaxEntry_spec (dt.map g) (g k0)
    rw [← hm] at hdec hbound hle
    have hdecd : (firstDedup xs).map g = l₁ ++ m :: l₂ := by
      rw [hd, List.map_cons, hdec]
    have hled : ∀ q ∈ (firstDedup xs).map g, q.2 ≤ m.2 := by
      rw [hd, List.map_cons]
      exact hle
    obtain ⟨d₁, km, d₂, hsplit, hmap1, hgkm, hmap2⟩ :=
      map_decomp g (firstDedup xs) l₁ l₂ m hdecd
    have hm2 : m.2 = xs.count km := by rw [← hgkm]
    have hmax : maxCountOf xs = m.2 := by
      apply Nat.le_antisymm
      · apply foldr_max_le
        intro v hv
        rcases List.mem_map.mp hv with ⟨y, hy, rfl⟩
        have hyd : y ∈ firstDedup xs := (mem_firstDedup xs y).mpr hy
        exact hled (g y) (List.mem_map_of_mem g hyd)
      · rw [hm2]
        apply le_foldr_max
        apply List.mem_map_of_mem
        have : km ∈ firstDedup xs := by
          rw [hsplit]
          exact List.mem_append_right d₁ (List.mem_cons_self km d₂)
        exact (mem_firstDedup xs km).mp this
    have hP : ∀ y : String, (fun y => decide (xs.count y = maxCountOf xs)) y = true ↔
        xs.count y = m.2 := by
      intro y
      rw [decide_eq_true_eq, hmax]
    have hfind : (firstDedup xs).find?
        (fun y => decide (xs.count y = maxCountOf xs)) = some km := by
      rw [hsplit]
      apply find?_prefix_fail
      · intro y hy
        have hyl : g y ∈ l₁ := by
          rw [← hmap1]
          exact List.mem_map_of_mem g hy
        have := hbound (g y) hyl
        rw [decide_eq_false_iff_not]
        rw [hmax]
        exact Nat.ne_of_lt this
      · rw [decide_eq_true_eq, hmax, hm2]
    have hfirst : mostFrequentFirst xs = some km := by
      rw [mostFrequentFirst, ← find?_firstDedup, hfind]
    rw [hcode, hfirst]
    have hm1 : m.1 = km := by rw [← hgkm]
    rw [hm1]

end WeatherService

namespace WeatherService

/-! ## The grouping produces, for every day, the bucket of exactly the
samples of that day, in payload order -/

theorem samplesOfDay_snoc (l : List RawSample) (s : RawSample) (d : Nat) :
    samplesOfDay (l ++ [s]) d =
      samplesOfDay l d ++ (if dayOf s = d then [s] else []) := by
  rw [samplesOfDay, samplesOfDay, List.filter_append]
  congr 1
  by_cases h : dayOf s = d
  · simp [h]
  · simp [h]

theorem bucketOf_snoc_same (l : List RawSample) (s : RawSample) :
    bucketOf (l ++ [s]) (dayOf s) = pushSample (bucketOf l (dayOf s)) s := by
  rw [bucketOf, bucketOf, pushSample]
  simp [samplesOfDay_snoc]

theorem bucketOf_snoc_other (l : List RawSample) (s : RawSample) (k : Nat)
    (h : dayOf s ≠ k) : bucketOf (l ++ [s]) k = bucketOf l k := by
  rw [bucketOf, bucketOf]
  simp [samplesOfDay_snoc, h]

theorem updateFirst_absent (acc : List DayBucket) (x : Nat) (s : RawSample) :
    (∀ b ∈ acc, b.date ≠ x) →
      updateFirst acc x s = acc ++ [pushSample (newBucket x) s] := by
  induction acc with
  | nil => intro _; rfl
  | cons b rest ih =>
    intro h
    rw [updateFirst, if_neg (h b (List.mem_cons_self b rest)), List.cons_append,
      ih (fun q hq => h q (List.mem_cons_of_mem b hq))]

theorem updateFirst_map (keys : List Nat) (f : Nat → DayBucket) (x : Nat)
    (s : RawSample) (hfd : ∀ k, (f k).date = k) :
    keys.Nodup → x ∈ keys →
      updateFirst (keys.map f) x s =
        keys.map (fun k => if k = x then pushSample (f k) s else f k) := by
  induction keys with
  | nil => intro _ h; exact absurd h (List.not_mem_nil x)
  | cons y keys ih =>
    intro hnd hx
    rw [List.map_cons, List.map_cons]
    rcases List.mem_cons.mp hx with rfl | hx
    · rw [updateFirst, if_pos (hfd x)]
      have htail : keys.map (fun k => if k = x then pushSample (f k) s else f k) =
          keys.map f := by
        apply List.map_congr_left
        intro a ha
        rw [if_neg (fun (h : a = x) => (List.nodup_cons.mp hnd).1 (h ▸ ha))]
      rw [htail, if_pos rfl]
    · have hyx : y ≠ x := by
        rintro rfl
        exact (List.nodup_cons.mp hnd).1 hx
      rw [updateFirst, if_neg (fun h => hyx ((hfd y) ▸ h)), if_neg hyx,
        ih (List.nodup_cons.mp hnd).2 hx]

/-- Grouping characterized for every payload: the bucket list consists of
the first-encountered distinct days, each carrying the field values of
exactly the samples of that day, in payload order. -/
theorem groupByDay_eq (samples : List RawSample) :
    groupByDay samples =
      (firstDedup (samples.map dayOf)).map (bucketOf samples) := by
  induction samples using List.reverseRecOn with
  | nil => rfl
  | append_singleton l s ih =>
    rw [groupByDay, List.foldl_append, List.foldl_cons, List.foldl_nil,
      show List.foldl (fun acc s => updateFirst acc (dayOf s) s) [] l
        = groupByDay l from rfl, ih,
      List.map_append, List.map_singleton, firstDedup_snoc]
    by_cases hx : dayOf s ∈ l.map dayOf
    · rw [if_pos hx, List.append_nil]
      have hxd : dayOf s ∈ firstDedup (l.map dayOf) :=
        (mem_firstDedup (l.map dayOf) (dayOf s)).mpr hx
      rw [updateFirst_map (firstDedup (l.map dayOf)) (bucketOf l) (dayOf s) s
        (fun k => rfl) (nodup_firstDedup (l.map dayOf)) hxd]
      apply List.map_congr_left
      intro k hk
      by_cases hks : k = dayOf s
      · subst hks
        rw [if_pos rfl, ← bucketOf_snoc_same]
      · rw [if_neg hks, bucketOf_snoc_other l s k (fun h => hks h.symm)]
    · rw [if_neg hx]
      have habs : ∀ b ∈ (firstDedup (l.map dayOf)).map (bucketOf l),
          b.date ≠ dayOf s := by
        intro b hb
        rcases List.mem_map.mp hb with ⟨k, hk, rfl⟩
        intro h
        apply hx
        rw [← h]
        exact (mem_firstDedup (l.map dayOf) k).mp hk
      rw [updateFirst_absent _ _ _ habs, List.map_append, List.map_singleton]
      congr 1
      · apply List.map_congr_left
        intro k hk
        have hks : dayOf s ≠ k := by
          intro h
          exact hx (h ▸ (mem_firstDedup (l.map dayOf) k).mp hk)
        exact (bucketOf_snoc_other l s k hks).symm
      · have hnil : samplesOfDay l (dayOf s) = [] := by
          rw [samplesOfDay, List.filter_eq_nil_iff]
          intro a ha
          simp only [beq_iff_eq]
          intro h
          exact hx (h ▸ List.mem_map_of_mem dayOf ha)
        have hnew : bucketOf l (dayOf s) = newBucket (dayOf s) := by
          rw [bucketOf, newBucket, hnil]
          rfl
        rw [bucketOf_snoc_same, hnew]

/-- The per-day summary of the grouped bucket is exactly the summary the
amended claim prescribes for the samples of that day. -/
theorem summarize_bucketOf (samples : List RawSample) (d : Nat) :
    summarize (bucketOf samples d) = claimedSummary samples d := by
  rw [summarize, claimedSummary]
  simp only [bucketOf, codeMostFrequent_eq_mostFrequentFirst, List.length_map]

/-- C1 (corrected), for every raw forecast payload: the aggregator emits
the summaries of the distinct sample days in first-encounter order,
truncated to five, and computes each daily summary from exactly the samples
of that day: high and low are the rounded (Math.round) maximal and minimal
temperature, precipitation the rounded maximal probability times 100, icon
and description the most frequent value of the day with ties broken by
first encounter, wind the rounded mean wind speed times 3.6. The original
claim asserted a ceiling-rounded high; the source rounds it like the low. -/
theorem c1_daily_summary_amended (samples : List RawSample) :
    processForecastData ⟨some samples⟩ =
      ((firstDedup (samples.map dayOf)).map (claimedSummary samples)).take 5 := by
  show ((groupByDay samples).map summarize).take 5 = _
  rw [groupByDay_eq, List.map_map]
  congr 1
  apply List.map_congr_left
  intro d _
  exact summarize_bucketOf samples d

end WeatherService

namespace WeatherService

/-! ## Retry policy lemmas -/

theorem retryGo_fail {α : Type} (fn : Nat → Except String α) (d : Nat) :
    ∀ (r a : Nat) (e : String),
      (∀ j, a ≤ j → j ≤ a + r → isErrorOutcome (fn j) = true) →
      fn (a + r) = .error e →
      retryGo fn d a r =
        (.error e, (List.range' a r).map (fun t => d * 2 ^ (t - 1))) := by
  intro r
  induction r with
  | zero =>
    intro a e _ hlast
    rw [Nat.add_zero] at hlast
    simp only [retryGo]
    rw [hlast]
    rfl
  | succ r ih =>
    intro a e hall hlast
    have ha : isErrorOutcome (fn a) = true :=
      hall a (le_refl a) (Nat.le_add_right a (r + 1))
    obtain ⟨ea, hea⟩ : ∃ ea, fn a = .error ea := by
      cases hfa : fn a with
      | ok v => rw [hfa] at ha; exact absurd ha (by simp [isErrorOutcome])
      | error e2 => exact ⟨e2, rfl⟩
    have hn1 : a + 1 + r = a + (r + 1) := by omega
    have hrec := ih (a + 1) e
      (fun j hj1 hj2 => hall j (by omega) (by omega))
      (by rw [hn1]; exact hlast)
    simp only [retryGo]
    rw [hea]
    show (_, d * 2 ^ (a - 1) :: _) = _
    rw [hrec, List.range'_succ]
    rfl

theorem retryGo_ok {α : Type} (fn : Nat → Except String α) (d : Nat) :
    ∀ (r a k : Nat) (v : α), a ≤ k → k ≤ a + r → fn k = .ok v →
      (∀ j, a ≤ j → j < k → isErrorOutcome (fn j) = true) →
      retryGo fn d a r =
        (.ok v, (List.range' a (k - a)).map (fun t => d * 2 ^ (t - 1))) := by
  intro r
  induction r with
  | zero =>
    intro a k v h1 h2 hk _
    have hka : k = a := by omega
    subst hka
    simp only [retryGo]
    rw [hk, Nat.sub_self]
    rfl
  | succ r ih =>
    intro a k v h1 h2 hk hjs
    by_cases hka : k = a
    · subst hka
      simp only [retryGo]
      rw [hk, Nat.sub_self]
      rfl
    · have hlt : a < k := by omega
      have ha : isErrorOutcome (fn a) = true := hjs a (le_refl a) hlt
      obtain ⟨ea, hea⟩ : ∃ ea, fn a = .error ea := by
        cases hfa : fn a with
        | ok w => rw [hfa] at ha; exact absurd ha (by simp [isErrorOutcome])
        | error e2 => exact ⟨e2, rfl⟩
      have hrec := ih (a + 1) k v (by omega) (by omega) hk
        (fun j hj1 hj2 => hjs j (by omega) hj2)
      simp only [retryGo]
      rw [hea]
      show (_, d * 2 ^ (a - 1) :: _) = _
      rw [hrec]
      have hsub : k - a = (k - (a + 1)) + 1 := by omega
      rw [hsub, List.range'_succ]
      rfl

/-- C3: retryWithBackoff runs the operation up to n times; after a failed
attempt k < n it waits d * 2 ^ (k - 1) (the emitted delay list is exactly
d * 2 ^ (t - 1) for t = 1 .. last attempt - 1); a successful attempt k
returns its result; if every attempt fails, the final failure carries the
error of the last attempt. -/
theorem c3_retry_backoff {α : Type} (fn : Nat → Except String α) (n d : Nat)
    (hn : 1 ≤ n) :
    ((∀ j, 1 ≤ j → j ≤ n → isErrorOutcome (fn j) = true) →
      ∀ e, fn n = .error e →
        retryWithBackoff fn n d =
          (.error (some e),
            (List.range' 1 (n - 1)).map (fun t => d * 2 ^ (t - 1)))) ∧
    (∀ k v, 1 ≤ k → k ≤ n → fn k = .ok v →
      (∀ j, 1 ≤ j → j < k → isErrorOutcome (fn j) = true) →
      retryWithBackoff fn n d =
        (.ok v, (List.range' 1 (k - 1)).map (fun t => d * 2 ^ (t - 1)))) := by
  constructor
  · intro hall e hlast
    have hn1 : 1 + (n - 1) = n := by omega
    have h := retryGo_fail fn d (n - 1) 1 e
      (fun j hj1 hj2 => hall j hj1 (by omega))
      (by rw [hn1]; exact hlast)
    rw [retryWithBackoff, if_neg (show ¬ n = 0 by omega), h]
  · intro k v hk1 hk2 hkv hjs
    have h := retryGo_ok fn d (n - 1) 1 k v hk1 (by omega) hkv
      (fun j hj1 hj2 => hjs j hj1 hj2)
    rw [retryWithBackoff, if_neg (show ¬ n = 0 by omega), h]

/-- Witness for C3 at the spec example: failures on attempts 1 and 2,
success on attempt 3, base delay 1000: waits 1000 then 2000, returns the
attempt-3 result. -/
theorem c3_retry_backoff_witness :
    retryWithBackoff
      (fun k => if k ≤ 2 then .error ("fail " ++ toString k) else .ok 42)
      3 1000 = (.ok 42, [1000, 2000]) := by
  have hjs : ∀ j, 1 ≤ j → j < 3 → isErrorOutcome
      ((fun k => if k ≤ 2 then (.error ("fail " ++ toString k) : Except String Nat)
        else .ok 42) j) = true := by
    intro j h1 h2
    interval_cases j <;> rfl
  have h := (c3_retry_backoff
    (fun k => if k ≤ 2 then .error ("fail " ++ toString k) else .ok 42)
    3 1000 (by omega)).2 3 42 (by omega) (by omega) rfl hjs
  rw [h]
  rfl

end WeatherService

namespace WeatherService

/-- C1 counterexample: for a single-sample day with temperature 10.2 the
source emits high = Math.round 10.2 = 10, while the claim prescribes the
ceiling-rounded maximum, which is 11. -/
theorem c1_high_not_ceiling_counterexample :
    (processForecastData
        ⟨some [⟨0, mkRat 51 5, some 0, "04d", "overcast clouds", 0⟩]⟩).map
      (fun d => d.high) = [10] ∧
    ratCeil (mkRat 51 5) = 11 ∧ (10 : Int) ≠ 11 := by
  refine ⟨by decide, by decide, by decide⟩

/-- Witness for the amended C1 at the spec example: temps 10, 15, 12, pops
0.1, 0.5, 0.2, winds 2, 4, 3, icons 01d, 01d, 02d, one calendar day. -/
theorem c1_daily_summary_amended_witness :
    processForecastData ⟨some [
      ⟨0, mkRat 10 1, some (mkRat 1 10), "01d", "clear sky", mkRat 2 1⟩,
      ⟨10800, mkRat 15 1, some (mkRat 1 2), "01d", "clear sky", mkRat 4 1⟩,
      ⟨21600, mkRat 12 1, some (mkRat 1 5), "02d", "few clouds", mkRat 3 1⟩]⟩
    = [⟨0, 15, 10, 50, "01d", "clear sky", 11⟩] := by
  have h := c1_daily_summary_amended [
      ⟨0, mkRat 10 1, some (mkRat 1 10), "01d", "clear sky", mkRat 2 1⟩,
      ⟨10800, mkRat 15 1, some (mkRat 1 2), "01d", "clear sky", mkRat 4 1⟩,
      ⟨21600, mkRat 12 1, some (mkRat 1 5), "02d", "few clouds", mkRat 3 1⟩]
  rw [h]
  decide

/-- C7 counterexample: a malformed current-namespace payload together with a
well formed, nonempty forecast-namespace payload loads BOTH namespaces as
empty: the malformed payload does affect the other namespace. -/
theorem c7_namespace_independence_counterexample :
    initializeCache (some .malformed)
        (some (.wellFormed [("paris", ⟨0, "sunny"⟩)])) = ⟨[], []⟩ ∧
    ([("paris", (⟨0, "sunny"⟩ : CacheEntry))] : CacheMap) ≠ [] := by
  refine ⟨rfl, by decide⟩

/-- C7 (corrected): an absent payload initializes its namespace to an empty
mapping without affecting the other namespace, and no parse failure
propagates (initializeCache always returns); but a malformed payload in
either namespace resets BOTH namespaces to empty mappings, because both
parses share one try/catch. -/
theorem c7_cache_load_amended (mc mf : CacheMap) (sc sf : Option StoredPayload) :
    initializeCache none none = ⟨[], []⟩ ∧
    initializeCache none (some (.wellFormed mf)) = ⟨[], mf⟩ ∧
    initializeCache (some (.wellFormed mc)) none = ⟨mc, []⟩ ∧
    initializeCache (some (.wellFormed mc)) (some (.wellFormed mf)) = ⟨mc, mf⟩ ∧
    initializeCache (some .malformed) sf = ⟨[], []⟩ ∧
    initializeCache sc (some .malformed) = ⟨[], []⟩ := by
  refine ⟨rfl, rfl, rfl, rfl, ?_, ?_⟩
  · cases sf with
    | none => rfl
    | some p => cases p <;> rfl
  · cases sc with
    | none => rfl
    | some p => cases p <;> rfl

/-- C8: the code bug evaluated. A coordinate-pair location makes
getCurrentWeather throw a TypeError during cache-key normalization (line 79
runs location.toLowerCase() before the line 93 coordinate check), instead of
falling through to a coordinate-based query as the claim states. -/
theorem c8_coordinate_location_throws (cache : CacheMap) (now : Int)
    (lat lon : Int) (net : Except String WData) :
    getCurrentWeather cache (.coords lat lon) now net =
      .error "TypeError: location.toLowerCase is not a function" := rfl

/-- C9: findNearbyCities returns candidates of the documented shape, at most
as many as the response carries (the request caps the response at
GEO_LIMIT = 3 candidates), and returns an absent result on a thrown error,
a non-2xx response, or an empty result set; it never propagates an error. -/
theorem c9_find_nearby_cities_soft (e : String) (data : List GeoCity) :
    findNearbyCities (.throwErr e) = none ∧
    findNearbyCities .notOk = none ∧
    findNearbyCities (.ok []) = none ∧
    (data ≠ [] → findNearbyCities (.ok data) = some (data.map toCity)) ∧
    (data.length ≤ GEO_LIMIT → ∀ l, findNearbyCities (.ok data) = some l →
      l.length ≤ 3 ∧ l = data.map toCity) := by
  refine ⟨rfl, rfl, rfl, ?_, ?_⟩
  · intro hne
    rw [findNearbyCities,
      if_pos (Nat.pos_of_ne_zero (fun h => hne (List.eq_nil_of_length_eq_zero h)))]
  · intro hlen l hl
    cases data with
    | nil => exact absurd hl (by rw [findNearbyCities]; simp)
    | cons c t =>
      rw [findNearbyCities,
        if_pos (show (c :: t).length > 0 by simp)] at hl
      have hleq : l = (c :: t).map toCity := (Option.some.injEq _ _ ▸ hl).symm
      constructor
      · rw [hleq, List.length_map]
        exact hlen
      · exact hleq

/-- Witness for C9 at a concrete two-candidate response. -/
theorem c9_find_nearby_cities_soft_witness :
    findNearbyCities (.ok [⟨"Paris", "FR", "", 48, 2, 7⟩,
        ⟨"Paris", "US", "TX", 33, -95, 9⟩]) =
      some [⟨"Paris", "FR", "", 48, 2⟩, ⟨"Paris", "US", "TX", 33, -95⟩] ∧
    ([⟨"Paris", "FR", "", 48, 2⟩,
      (⟨"Paris", "US", "TX", 33, -95⟩ : City)]).length ≤ 3 := by
  have h := (c9_find_nearby_cities_soft "e"
    [⟨"Paris", "FR", "", 48, 2, 7⟩, ⟨"Paris", "US", "TX", 33, -95, 9⟩]).2.2.2
  refine ⟨?_, by decide⟩
  have h4 := h.1 (by decide)
  rw [h4]
  decide

end WeatherService

namespace WeatherService

/-- C2: with a cache entry for the normalized key written at time T, a call
strictly before T plus 30 minutes returns the cached data with no network
call, and a call at or after that instant reaches the network, for both
getCurrentWeather and getWeatherForecast. -/
theorem c2_cache_freshness (cur : CacheMap) (fc : FcMap) (s : String)
    (e : CacheEntry) (ef : FcEntry) (now : Int) (netC : Except String WData)
    (netF : Except String ForecastPayload)
    (hs : s.isEmpty = false)
    (hc : alookup cur (normalizeName s) = some e)
    (hf : alookup fc (normalizeName s) = some ef) :
    (now - e.timestamp < WEATHER_CACHE_DURATION →
      getCurrentWeather cur (.name s) now netC =
        .ok ⟨.payload e.data, false, cur⟩) ∧
    (¬ now - e.timestamp < WEATHER_CACHE_DURATION →
      ∃ out, getCurrentWeather cur (.name s) now netC = .ok out ∧
        out.networkCalled = true) ∧
    (now - ef.timestamp < WEATHER_CACHE_DURATION →
      getWeatherForecast fc (.name s) now netF =
        ⟨.payload ef.data, false, fc⟩) ∧
    (¬ now - ef.timestamp < WEATHER_CACHE_DURATION →
      (getWeatherForecast fc (.name s) now netF).networkCalled = true) := by
  refine ⟨?_, ?_, ?_, ?_⟩
  · intro hlt
    simp [getCurrentWeather, locFalsy, hs, hc, hlt]
  · intro hge
    have hout : getCurrentWeather cur (.name s) now netC =
        .ok (currentFetchPath cur (normalizeName s) (some e) now netC) := by
      simp [getCurrentWeather, locFalsy, hs, hc, hge]
    refine ⟨currentFetchPath cur (normalizeName s) (some e) now netC, hout, ?_⟩
    cases netC with
    | ok d => rfl
    | error m => rfl
  · intro hlt
    simp [getWeatherForecast, locFalsy, hs, forecastKey, hf, hlt]
  · intro hge
    have hout : getWeatherForecast fc (.name s) now netF =
        forecastFetchPath fc (normalizeName s) (some ef) now netF := by
      simp [getWeatherForecast, locFalsy, hs, forecastKey, hf, hge]
    rw [hout]
    cases netF with
    | ok p => rfl
    | error m => rfl

/-- Witness for C2: a fresh hit on both namespaces at 1000 ms after the
entry timestamp 0 serves the cached data without a network call, and a
stale forecast entry at 30 minutes sharp reaches the network. -/
theorem c2_cache_freshness_witness :
    getCurrentWeather [("paris", ⟨0, "sunny"⟩)] (.name "Paris") 1000 (.ok "fresh")
      = .ok ⟨.payload "sunny", false, [("paris", ⟨0, "sunny"⟩)]⟩ ∧
    getWeatherForecast [("paris", ⟨0, [], ⟨none⟩⟩)] (.name "Paris") 1000
        (.error "boom") = ⟨.payload [], false, [("paris", ⟨0, [], ⟨none⟩⟩)]⟩ ∧
    (getWeatherForecast [("paris", ⟨0, [], ⟨none⟩⟩)] (.name "Paris") 1800000
        (.error "boom")).networkCalled = true := by
  have h1 := c2_cache_freshness [("paris", ⟨0, "sunny"⟩)]
    [("paris", ⟨0, [], ⟨none⟩⟩)] "Paris" ⟨0, "sunny"⟩ ⟨0, [], ⟨none⟩⟩ 1000
    (.ok "fresh") (.error "boom") rfl (by decide) (by decide)
  have h2 := c2_cache_freshness [("paris", ⟨0, "sunny"⟩)]
    [("paris", ⟨0, [], ⟨none⟩⟩)] "Paris" ⟨0, "sunny"⟩ ⟨0, [], ⟨none⟩⟩ 1800000
    (.ok "fresh") (.error "boom") rfl (by decide) (by decide)
  exact ⟨h1.1 (by decide), h1.2.2.1 (by decide), h2.2.2.2 (by decide)⟩

/-- C4: when the fetch terminally fails, getCurrentWeather returns the data
of a cache entry present at call start even if expired, returns the
error-shaped object when no entry exists, and in every case resolves
normally rather than throwing. -/
theorem c4_stale_fallback (cache : CacheMap) (s : String) (now : Int)
    (msg : String) (hs : s.isEmpty = false) :
    (∀ e, alookup cache (normalizeName s) = some e →
      ∃ out, getCurrentWeather cache (.name s) now (.error msg) = .ok out ∧
        out.result = .payload e.data ∧ out.cacheAfter = cache) ∧
    (alookup cache (normalizeName s) = none →
      getCurrentWeather cache (.name s) now (.error msg) =
        .ok ⟨.errObj msg, true, cache⟩) ∧
    (∃ out, getCurrentWeather cache (.name s) now (.error msg) = .ok out) := by
  have hguard : ∀ (he : Option CacheEntry),
      alookup cache (normalizeName s) = he → ∃ out,
        getCurrentWeather cache (.name s) now (.error msg) = .ok out := by
    intro he helk
    cases he with
    | some e =>
      by_cases hfresh : now - e.timestamp < WEATHER_CACHE_DURATION
      · exact ⟨⟨.payload e.data, false, cache⟩,
          by simp [getCurrentWeather, locFalsy, hs, helk, hfresh]⟩
      · exact ⟨⟨.payload e.data, true, cache⟩,
          by simp [getCurrentWeather, locFalsy, hs, helk, hfresh, currentFetchPath]⟩
    | none =>
      exact ⟨⟨.errObj msg, true, cache⟩,
        by simp [getCurrentWeather, locFalsy, hs, helk, currentFetchPath]⟩
  refine ⟨?_, ?_, ?_⟩
  · intro e helk
    by_cases hfresh : now - e.timestamp < WEATHER_CACHE_DURATION
    · exact ⟨⟨.payload e.data, false, cache⟩,
        by simp [getCurrentWeather, locFalsy, hs, helk, hfresh], rfl, rfl⟩
    · exact ⟨⟨.payload e.data, true, cache⟩,
        by simp [getCurrentWeather, locFalsy, hs, helk, hfresh, currentFetchPath],
        rfl, rfl⟩
  · intro helk
    simp [getCurrentWeather, locFalsy, hs, helk, currentFetchPath]
  · exact hguard (alookup cache (normalizeName s)) rfl

/-- Witness for C4: an entry an hour old (far beyond the 30-minute window)
is served as a degraded success when the network fails. -/
theorem c4_stale_fallback_witness :
    ∃ out, getCurrentWeather [("paris", ⟨0, "stale"⟩)] (.name "paris") 3600000
        (.error "network down") = .ok out ∧
      out.result = .payload "stale" ∧
      out.cacheAfter = [("paris", ⟨0, "stale"⟩)] := by
  exact (c4_stale_fallback [("paris", ⟨0, "stale"⟩)] "paris" 3600000
    "network down" rfl).1 ⟨0, "stale"⟩ (by decide)

/-- C6: the branch structure of getWeatherData. When both fetcher results
carry a (truthy) error and the current error contains "not found" and the
resolver yields a nonempty candidate list, the result is the alternatives
object with the did-you-mean message; when both carry an error but the
message lacks "not found" or no candidates exist, the result carries the
current error with the forecast error discarded; otherwise the two results
are passed through unchanged with a null error. -/
theorem c6_combined_result_shape (location : String) (current : FetchVal)
    (forecast : FcVal) (altsR : Except String (Option (List City))) :
    (∀ cmsg fmsg, errField current = some cmsg → cmsg.isEmpty = false →
      errFieldF forecast = some fmsg → fmsg.isEmpty = false →
      ((jsIncludes cmsg "not found" = true → ∀ l, altsR = .ok (some l) →
          l ≠ [] →
          getWeatherData location (.ok current) (.ok forecast) altsR =
            ⟨.nullv, .nullv, some l, some (notFoundMessage location)⟩) ∧
       (jsIncludes cmsg "not found" = false →
          getWeatherData location (.ok current) (.ok forecast) altsR =
            ⟨.nullv, .nullv, none, some cmsg⟩) ∧
       (altsR = .ok none →
          getWeatherData location (.ok current) (.ok forecast) altsR =
            ⟨.nullv, .nullv, none, some cmsg⟩))) ∧
    (truthyStr (errField current) = false ∨
        truthyStr (errFieldF forecast) = false →
      getWeatherData location (.ok current) (.ok forecast) altsR =
        ⟨current, forecast, none, none⟩) := by
  constructor
  · intro cmsg fmsg hc hc0 hf hf0
    refine ⟨?_, ?_, ?_⟩
    · intro hinc l halts hl
      subst halts
      simp [getWeatherData, hc, hc0, hf, hf0, truthyStr, hinc, altsTruthy,
        List.length_pos.mpr hl]
    · intro hinc
      simp [getWeatherData, hc, hc0, hf, hf0, truthyStr, hinc]
    · intro halts
      subst halts
      by_cases hinc : jsIncludes cmsg "not found" = true
      · simp [getWeatherData, hc, hc0, hf, hf0, truthyStr, hinc, altsTruthy]
      · simp [getWeatherData, hc, hc0, hf, hf0, truthyStr,
          Bool.eq_false_iff.mpr hinc]
  · intro hor
    rcases hor with h | h
    · simp [getWeatherData, h]
    · simp [getWeatherData, h]

/-- Witness for C6: both fetches fail with a not-found message and the
resolver returns two candidates, producing the alternatives result. -/
theorem c6_combined_result_shape_witness :
    getWeatherData "Nonexistentville"
        (.ok (.errObj "Location \"Nonexistentville\" not found"))
        (.ok (.errObj "Location \"Nonexistentville\" not found"))
        (.ok (some [⟨"Paris", "FR", "", 48, 2⟩, ⟨"Paris", "US", "TX", 33, -95⟩]))
      = ⟨.nullv, .nullv,
          some [⟨"Paris", "FR", "", 48, 2⟩, ⟨"Paris", "US", "TX", 33, -95⟩],
          some (notFoundMessage "Nonexistentville")⟩ := by
  have h := c6_combined_result_shape "Nonexistentville"
    (.errObj "Location \"Nonexistentville\" not found")
    (.errObj "Location \"Nonexistentville\" not found")
    (.ok (some [⟨"Paris", "FR", "", 48, 2⟩, ⟨"Paris", "US", "TX", 33, -95⟩]))
  exact (h.1 "Location \"Nonexistentville\" not found"
    "Location \"Nonexistentville\" not found" rfl rfl rfl rfl).1
    (by decide) [⟨"Paris", "FR", "", 48, 2⟩, ⟨"Paris", "US", "TX", 33, -95⟩]
    rfl (by decide)

/-- C10: getWeatherData never propagates an exception: a rejection of the
current-weather fetch, of the forecast fetch, or of the alternate-location
resolver is converted by the top-level catch into the error-shaped combined
object carrying that message with null current and forecast. -/
theorem c10_top_level_catch (location : String)
    (currentR : Except String FetchVal) (forecastR : Except String FcVal)
    (altsR : Except String (Option (List City))) :
    (∀ e, currentR = .error e →
      getWeatherData location currentR forecastR altsR =
        ⟨.nullv, .nullv, none, some e⟩) ∧
    (∀ e cur, currentR = .ok cur → forecastR = .error e →
      getWeatherData location currentR forecastR altsR =
        ⟨.nullv, .nullv, none, some e⟩) ∧
    (∀ e cur fc cmsg fmsg, currentR = .ok cur → forecastR = .ok fc →
      errField cur = some cmsg → cmsg.isEmpty = false →
      errFieldF fc = some fmsg → fmsg.isEmpty = false →
      jsIncludes cmsg "not found" = true → altsR = .error e →
      getWeatherData location currentR forecastR altsR =
        ⟨.nullv, .nullv, none, some e⟩) := by
  refine ⟨?_, ?_, ?_⟩
  · intro e he
    subst he
    rfl
  · intro e cur hcur hfc
    subst hcur
    subst hfc
    rfl
  · intro e cur fc cmsg fmsg hcur hfc hc hc0 hf hf0 hinc halts
    subst hcur
    subst hfc
    subst halts
    simp [getWeatherData, hc, hc0, hf, hf0, truthyStr, hinc]

/-- Witness for C10: a current-weather rejection is caught and converted. -/
theorem c10_top_level_catch_witness :
    getWeatherData "paris" (.error "boom") (.ok .nullv) (.ok none) =
      ⟨.nullv, .nullv, none, some "boom"⟩ := by
  exact (c10_top_level_catch "paris" (.error "boom") (.ok .nullv) (.ok none)).1
    "boom" rfl

end WeatherService
